import Mathlib

/-!
Shallow embedding of `astroplan/scheduling.py` (fork `joshwalawender/astroplan`):
the block data model (`ObservingBlock`, `TransitionBlock`), the `Transitioner`,
and the greedy scheduling loops of `SequentialScheduler` and `SummingScheduler`.

Modelling choices:
* time quantities and scores are `ℚ`;
* a constraint is the external callable `(observer, [target], times) -> scores`,
  modelled as a per-sample score function of the target id and the sample time
  (the `observer` is opaque and constant through a scheduling call, so it is
  dropped from the embedding);
* the angular-separation collaborator `_get_altaz`+`separation` used by
  `Transitioner.__call__` is a parameter `sep : target → target → time → ℚ`;
* Python-level failures are made explicit: calling `None` (the default
  `transitioner`) raises `TypeError`; `self.compute_instrument_transitions`
  does not exist (the `def` is nested after the `return` of `__call__`),
  so reaching that line raises `AttributeError`; `assert`/`if` on a
  multi-element numpy result raises `ValueError` ("The truth value of an
  array with more than one element is ambiguous"), and on a one-element
  result behaves like `assert`/`if` on its single entry;
* the scheduling `while` loop is given explicit fuel; `RunResult.fuelOut`
  means the fuel ran out while the loop guard still held.
-/

/-- Runtime errors the scheduling code can raise. -/
inductive SchedErr where
  | typeError       -- calling `None` (transitioner not set)
  | attributeError  -- `self.compute_instrument_transitions` does not exist
  | valueError      -- numpy: truth value of a multi-element array is ambiguous
  | assertionError  -- `assert` failure
  deriving DecidableEq, Repr

/-- External constraint callable: per-sample score of a target at a time
(`constraint(self.observer, [b.target], times)` returns one score per time). -/
structure Constraint where
  score : ℕ → ℚ → ℚ

/-- Embeds `ObservingBlock.__init__`: target, duration, optional per-block constraint
list, priority (default 1.0), and `start_time = end_time = None`;
`constraints_value` is set by the schedulers when the block is scheduled. -/
structure ObservingBlock where
  target : ℕ
  duration : ℚ
  constraints : Option (List Constraint)
  priority : ℚ
  startTime : Option ℚ
  endTime : Option ℚ
  constraintsValue : Option ℚ

instance : Inhabited ObservingBlock :=
  ⟨{ target := 0, duration := 0, constraints := none, priority := 1,
     startTime := none, endTime := none, constraintsValue := none }⟩

/-- Embeds `duration = 0*u.second; for t in val.values(): duration += t`. -/
def sumComponents (val : List (String × ℚ)) : ℚ :=
  val.foldl (fun d t => d + t.2) 0

/-- Embeds `TransitionBlock`: components mapping, start time, and the derived
`duration` (recomputed by the `components` setter). -/
structure TransitionBlock where
  components : List (String × ℚ)
  startTime : Option ℚ
  duration : ℚ
  deriving DecidableEq, Repr

/-- The `components` property setter: store the mapping and recompute
`duration` as the sum of its values. -/
def TransitionBlock.setComponents (tb : TransitionBlock) (val : List (String × ℚ)) :
    TransitionBlock :=
  { tb with components := val, duration := sumComponents val }

/-- Embeds `TransitionBlock.__init__(components, start_time)`: sets `start_time`,
then assigns `components` through the setter (which computes `duration`). -/
def TransitionBlock.make (components : List (String × ℚ)) (startTime : Option ℚ) :
    TransitionBlock :=
  TransitionBlock.setComponents
    { components := [], startTime := startTime, duration := 0 } components

/-- The `end_time` property: `self.start_time + self.duration`. -/
def TransitionBlock.end_time (tb : TransitionBlock) : Option ℚ :=
  tb.startTime.map (fun s => s + tb.duration)

/-- An entry of a schedule: an `ObservingBlock` or a `TransitionBlock`. -/
inductive Block where
  | ob : ObservingBlock → Block
  | tb : TransitionBlock → Block

/-- Embeds `Transitioner.__init__(slew_rate=None, instrument_reconfig_times=None)`. -/
structure Transitioner where
  slew_rate : Option ℚ
  instrument_reconfig_times : Option (List (String × List ((String × String) × ℚ)))

/-- Embeds `Transitioner.__call__(oldblock, newblock, start_time, observer)`.
`sep` is the angular-separation collaborator (`_get_altaz` + `separation`).
If `instrument_reconfig_times` is not `None`, the call evaluates
`self.compute_instrument_transitions(...)`, an attribute that does not exist
(its `def` is nested after the `return`), so it raises `AttributeError`. -/
def Transitioner.call (self : Transitioner) (sep : ℕ → ℕ → ℚ → ℚ)
    (oldblock : Option Block) (newblock : ObservingBlock) (start_time : ℚ) :
    Except SchedErr (Option TransitionBlock) :=
  let components : List (String × ℚ) :=
    match self.slew_rate, oldblock with
    | some rate, some (.ob old) =>
        [("slew_time", sep old.target newblock.target start_time / rate)]
    | some _, some (.tb _) => [("slew_time", 0)]
    | _, _ => []
  if self.instrument_reconfig_times.isSome then
    .error .attributeError
  else if components.isEmpty then
    .ok none
  else
    .ok (some (TransitionBlock.make components (some start_time)))

/-- Embeds `self.transitioner(new_blocks[-1], b, current_time, self.observer)`:
when the scheduler was constructed with `transitioner=None` (the default),
calling it raises `TypeError` ('NoneType' object is not callable). -/
def callTransitioner (t : Option Transitioner) (sep : ℕ → ℕ → ℚ → ℚ)
    (oldblock : Option Block) (newblock : ObservingBlock) (start_time : ℚ) :
    Except SchedErr (Option TransitionBlock) :=
  match t with
  | none => .error .typeError
  | some tr => tr.call sep oldblock newblock start_time

/-- Embeds `b._all_constraints`: the scheduler-wide constraints, followed by the
block's own constraints when present. -/
def allConstraints (global : List Constraint) (b : ObservingBlock) : List Constraint :=
  match b.constraints with
  | none => global
  | some cs => global ++ cs

/-- Embeds `b._duration_offsets = [0, b.duration/2, b.duration]`. -/
def durationOffsets (b : ObservingBlock) : List ℚ :=
  [0, b.duration / 2, b.duration]

/-- Embeds `np.prod` over a list of per-constraint score arrays: the product of
every element (numpy flattens). -/
def npProd (xs : List (List ℚ)) : ℚ :=
  (xs.map (fun r => r.prod)).prod

/-- Embeds `np.sum` over a list of per-constraint score arrays: the sum of every
element (numpy flattens). -/
def npSum (xs : List (List ℚ)) : ℚ :=
  (xs.map (fun r => r.sum)).sum

/-- Embeds `np.argmax`: index of the first occurrence of the maximum. -/
def npArgmax (xs : List ℚ) : ℕ :=
  match xs with
  | [] => 0
  | x :: rest => go 0 x 1 rest
where
  go (best : ℕ) (bestV : ℚ) (i : ℕ) : List ℚ → ℕ
    | [] => best
    | y :: ys => if bestV < y then go i y (i + 1) ys else go best bestV (i + 1) ys

/-- Truthiness of a numpy boolean array, as used by `assert arr` / `if arr:`:
defined only for single-element arrays, otherwise `ValueError`. -/
def npTruthy (xs : List Bool) : Except SchedErr Bool :=
  match xs with
  | [x] => .ok x
  | _ => .error .valueError

/-- Outcome of a scheduling-loop run. `done schedule pending currentTime`
carries the built schedule (`new_blocks`), the remaining pending blocks and
the final `current_time`; `fuelOut` means the fuel ran out while the loop
guard `len(blocks) > 0 and current_time < self.end_time` still held. -/
inductive RunResult where
  | done : List Block → List ObservingBlock → ℚ → RunResult
  | fuelOut : RunResult
  | error : SchedErr → RunResult

/-- The commit step shared by both strategies:
`newb.start_time = current_time; current_time += self.gap_time;
newb.end_time = current_time; newb.constraints_value = score`. -/
def scheduleOb (b : ObservingBlock) (current_time gap_time score : ℚ) :
    ObservingBlock :=
  { b with startTime := some current_time,
           endTime := some (current_time + gap_time),
           constraintsValue := some score }

/-- Per-candidate evaluation for one loop step: computes the transition from
`new_blocks[-1]` (when `new_blocks` is nonempty) and the aggregate score. -/
abbrev EvalFn :=
  List Block → ℚ → ObservingBlock → Except SchedErr (Option TransitionBlock × ℚ)

/-- The per-step loop over pending blocks, building `block_transitions` and
`block_constraint_results` in order. -/
def evalAll (eval : EvalFn) (new_blocks : List Block) (current_time : ℚ) :
    List ObservingBlock → Except SchedErr (List (Option TransitionBlock × ℚ))
  | [] => .ok []
  | b :: bs =>
    match eval new_blocks current_time b with
    | .error e => .error e
    | .ok r =>
      match evalAll eval new_blocks current_time bs with
      | .error e => .error e
      | .ok rs => .ok (r :: rs)

/-- The `while (len(blocks) > 0) and (current_time < self.end_time)` loop
shared verbatim by `SequentialScheduler._make_schedule` and
`SummingScheduler._make_schedule` (they differ only in the per-candidate
scoring, the `eval` parameter). -/
def schedLoop (eval : EvalFn) (end_time gap_time : ℚ) :
    ℕ → List ObservingBlock → List Block → ℚ → RunResult
  | 0, blocks, new_blocks, current_time =>
      if 0 < blocks.length ∧ current_time < end_time then .fuelOut
      else .done new_blocks blocks current_time
  | n + 1, blocks, new_blocks, current_time =>
      if 0 < blocks.length ∧ current_time < end_time then
        match evalAll eval new_blocks current_time blocks with
        | .error e => .error e
        | .ok rs =>
          let results := rs.map (fun r => r.2)
          let bestblock_idx := npArgmax results
          if results.getD bestblock_idx 0 = 0 then
            -- if even the best is unobservable, we need a gap
            schedLoop eval end_time gap_time n blocks
              (new_blocks ++
                [.tb (TransitionBlock.make [("nothing_observable", gap_time)]
                        (some current_time))])
              (current_time + gap_time)
          else
            match (rs.map (fun r => r.1)).getD bestblock_idx none with
            | some tr =>
              let ct2 := current_time + tr.duration
              let newb := scheduleOb (blocks.getD bestblock_idx default) ct2
                            gap_time (results.getD bestblock_idx 0)
              schedLoop eval end_time gap_time n
                (blocks.eraseIdx bestblock_idx)
                (new_blocks ++ [.tb tr, .ob newb]) (ct2 + gap_time)
            | none =>
              let newb := scheduleOb (blocks.getD bestblock_idx default)
                            current_time gap_time (results.getD bestblock_idx 0)
              schedLoop eval end_time gap_time n
                (blocks.eraseIdx bestblock_idx)
                (new_blocks ++ [.ob newb]) (current_time + gap_time)
      else .done new_blocks blocks current_time

/-- Scheduler configuration shared by `SequentialScheduler.__init__` and
`SummingScheduler.__init__` (both store the same attributes). -/
structure SchedConfig where
  constraints : List Constraint
  start_time : ℚ
  end_time : ℚ
  transitioner : Option Transitioner
  gap_time : ℚ

/-- The `SequentialScheduler` aggregate score: `np.prod(constraint_res)` where
`constraint_res` holds one per-sample score array per effective constraint —
the product over all the constraints *and* times. -/
def seqBlockScore (cons : List Constraint) (target : ℕ) (times : List ℚ) : ℚ :=
  npProd (cons.map (fun c => times.map (c.score target)))

/-- One candidate evaluation in `SequentialScheduler._make_schedule`:
transition from `new_blocks[-1]`, sample times
`current_time + transition_time + b._duration_offsets`, then the product
score. -/
def seqEval (s : SchedConfig) (sep : ℕ → ℕ → ℚ → ℚ) : EvalFn :=
  fun new_blocks current_time b =>
    match (if new_blocks.length > 0 then
             callTransitioner s.transitioner sep new_blocks.getLast? b
               current_time
           else .ok none) with
    | .error e => .error e
    | .ok otrans =>
      let transition_time :=
        match otrans with | none => 0 | some tr => tr.duration
      let times := (durationOffsets b).map
        (fun off => current_time + transition_time + off)
      .ok (otrans,
        seqBlockScore (allConstraints s.constraints b) b.target times)

/-- The per-constraint loop of `SummingScheduler._make_schedule`:
`constraint_result = constraint(...); assert constraint_result >= 0;
if constraint_result == 0: vetoed = True; constraint_res.append(...)`.
With the three-sample `times`, `assert`/`if` on the multi-element result
raise `ValueError` (ambiguous truth value); on a one-element result they
behave as ordinary assertion and test. -/
def summingConstraintLoop (target : ℕ) (times : List ℚ) :
    List Constraint → Bool → List (List ℚ) →
    Except SchedErr (Bool × List (List ℚ))
  | [], vetoed, acc => .ok (vetoed, acc)
  | c :: cs, vetoed, acc =>
    let constraint_result := times.map (c.score target)
    match npTruthy (constraint_result.map (fun x => decide (0 ≤ x))) with
    | .error e => .error e
    | .ok ge =>
      if ge = false then
        .error .assertionError
      else
        match npTruthy (constraint_result.map (fun x => decide (x = 0))) with
        | .error e => .error e
        | .ok eqz =>
          summingConstraintLoop target times cs (if eqz then true else vetoed)
            (acc ++ [constraint_result])

/-- One candidate evaluation in `SummingScheduler._make_schedule`: same
transition and sample times as the sequential strategy, then
`priority * np.sum(constraint_res)` unless vetoed (then `0`). -/
def summingEval (s : SchedConfig) (sep : ℕ → ℕ → ℚ → ℚ) : EvalFn :=
  fun new_blocks current_time b =>
    match (if new_blocks.length > 0 then
             callTransitioner s.transitioner sep new_blocks.getLast? b
               current_time
           else .ok none) with
    | .error e => .error e
    | .ok otrans =>
      let transition_time :=
        match otrans with | none => 0 | some tr => tr.duration
      let times := (durationOffsets b).map
        (fun off => current_time + transition_time + off)
      match summingConstraintLoop b.target times
              (allConstraints s.constraints b) false [] with
      | .error e => .error e
      | .ok (vetoed, constraint_res) =>
        .ok (otrans,
          if vetoed = false then b.priority * npSum constraint_res else 0)

/-- Embeds `SequentialScheduler._make_schedule` followed by `Scheduler.__call__`:
the shallow copies do not affect a pure embedding, and since the strategy
returns `already_sorted = True` the driver's sort is skipped, so the call
returns the loop's result unchanged. -/
def runSequential (s : SchedConfig) (sep : ℕ → ℕ → ℚ → ℚ) (fuel : ℕ)
    (blocks : List ObservingBlock) : RunResult :=
  schedLoop (seqEval s sep) s.end_time s.gap_time fuel blocks [] s.start_time

/-- Embeds `SummingScheduler._make_schedule` followed by `Scheduler.__call__`
(same driver behaviour: `already_sorted = True`). -/
def runSumming (s : SchedConfig) (sep : ℕ → ℕ → ℚ → ℚ) (fuel : ℕ)
    (blocks : List ObservingBlock) : RunResult :=
  schedLoop (summingEval s sep) s.end_time s.gap_time fuel blocks [] s.start_time

/-- The `(start_time, end_time, duration)` triples of the `ObservingBlock`s of
a finished schedule, in schedule order. -/
def obSpans (r : RunResult) : List (Option ℚ × Option ℚ × ℚ) :=
  match r with
  | .done sch _ _ =>
      sch.filterMap (fun x =>
        match x with
        | .ob b => some (b.startTime, b.endTime, b.duration)
        | .tb _ => none)
  | _ => []

/-- The `(start_time, end_time)` pairs of every entry of a finished
schedule, in schedule order. -/
def blockTimes (r : RunResult) : List (Option ℚ × Option ℚ) :=
  match r with
  | .done sch _ _ =>
      sch.map (fun x =>
        match x with
        | .ob b => (b.startTime, b.endTime)
        | .tb t => (t.startTime, t.end_time))
  | _ => []

/-- A constraint that scores `1` at every sample (always observable). -/
def cOne : Constraint := ⟨fun _ _ => 1⟩

/-- A constraint that scores `0` at every sample (never observable). -/
def cZero : Constraint := ⟨fun _ _ => 0⟩

/-- A degenerate separation collaborator: zero separation everywhere. -/
def sep0 : ℕ → ℕ → ℚ → ℚ := fun _ _ _ => 0

/-- An unscheduled `ObservingBlock` with the given target, duration,
constraints and priority, as built by `ObservingBlock.__init__`. -/
def mkOb (target : ℕ) (duration : ℚ) (constraints : Option (List Constraint))
    (priority : ℚ) : ObservingBlock :=
  { target := target, duration := duration, constraints := constraints,
    priority := priority, startTime := none, endTime := none,
    constraintsValue := none }

/-- The start time of a schedule entry (`start_time`; 0 if unset). -/
def bStart : Block → ℚ
  | .ob b => b.startTime.getD 0
  | .tb t => t.startTime.getD 0

/-- The end time of a schedule entry (`end_time`; 0 if unset). -/
def bEnd : Block → ℚ
  | .ob b => b.endTime.getD 0
  | .tb t => t.end_time.getD 0

/-- Forget an `ObservingBlock`'s priority (set it to the default 1.0). -/
def stripPriorityOb (b : ObservingBlock) : ObservingBlock :=
  { b with priority := 1 }

/-- Forget the priorities inside a schedule entry. -/
def stripPriorityBlock : Block → Block
  | .ob b => .ob (stripPriorityOb b)
  | .tb t => .tb t

/-- Forget the priorities inside a scheduling-run result. -/
def stripPriorityRun : RunResult → RunResult
  | .done sch rest ct =>
      .done (sch.map stripPriorityBlock) (rest.map stripPriorityOb) ct
  | r => r

/-- Every transition an evaluation function returns is anchored at the
current time and has non-negative duration. -/
def EvalTransOk (eval : EvalFn) : Prop :=
  ∀ nbs ct b tr sc, eval nbs ct b = .ok (some tr, sc) →
    tr.startTime = some ct ∧ 0 ≤ tr.duration

/-- An evaluation function that never raises and whose transitions have
non-negative durations. -/
def EvalOk (eval : EvalFn) : Prop :=
  ∀ nbs ct b, ∃ r, eval nbs ct b = .ok r ∧
    ∀ tr, r.1 = some tr → 0 ≤ tr.duration

/-- A constraint whose score grows linearly with the sample time
(`1` at time `0`): positive scores, no vetoes, for times `≥ 0`. -/
def cLin : Constraint := ⟨fun _ t => t + 1⟩

/-- C1: the claim says a scheduled block satisfies
`end_time - start_time == duration`. The code instead advances
`current_time += self.gap_time` between setting `start_time` and `end_time`
(`scheduling.py` lines 260–263 / 370–373), so a 3600 s block scheduled with
`gap_time = 1800` s gets `end_time - start_time = 1800 ≠ 3600`. -/
theorem c1_end_minus_start_is_gap_not_duration :
    obSpans (runSequential ⟨[cOne], 0, 7200, none, 1800⟩ sep0 5
        [mkOb 1 3600 none 1])
      = [(some 0, some 1800, 3600)]
    ∧ (1800 : ℚ) - 0 ≠ 3600 := by
  constructor
  · norm_num [runSequential, schedLoop, evalAll, seqEval, callTransitioner,
      seqBlockScore, npProd, allConstraints, durationOffsets, npArgmax,
      npArgmax.go, scheduleOb, obSpans, TransitionBlock.make,
      TransitionBlock.setComponents, sumComponents, TransitionBlock.end_time,
      mkOb, cOne, sep0, List.getD, List.filterMap]
  · norm_num

/-- C2: with both `slew_rate` and `instrument_reconfig_times` unset the call
returns `None`; but as soon as a reconfiguration table is configured the call
raises `AttributeError` instead of building the keyed components, because
`compute_instrument_transitions` is a `def` nested after the `return` of
`__call__` and never becomes an attribute of the `Transitioner`. -/
theorem c2_reconfig_table_unreachable :
    Transitioner.call ⟨none, none⟩ sep0 (some (.ob (mkOb 1 10 none 1)))
        (mkOb 2 10 none 1) 10 = .ok none
    ∧ Transitioner.call ⟨none, some [("filter", [(("B", "R"), 120)])]⟩ sep0
        (some (.ob (mkOb 1 10 none 1))) (mkOb 2 10 none 1) 10
      = .error .attributeError := by
  exact ⟨rfl, rfl⟩

/-- C3: the sequential aggregate score is the product of every
(constraint, sample) score over all effective constraints and all three
sample times, and a single zero score makes the aggregate exactly zero. -/
theorem c3_sequential_product_veto (g : List Constraint) (b : ObservingBlock)
    (t0 transition_time : ℚ) :
    seqBlockScore (allConstraints g b) b.target
        ((durationOffsets b).map (fun off => t0 + transition_time + off))
      = (((allConstraints g b).map (fun c =>
            ((durationOffsets b).map (fun off => t0 + transition_time + off)).map
              (c.score b.target))).flatten).prod
    ∧ ∀ c ∈ allConstraints g b,
        ∀ t ∈ (durationOffsets b).map (fun off => t0 + transition_time + off),
          c.score b.target t = 0 →
          seqBlockScore (allConstraints g b) b.target
            ((durationOffsets b).map (fun off => t0 + transition_time + off))
            = 0 := by
  constructor
  · rw [seqBlockScore, npProd, List.prod_flatten]
  · intro c hc t ht hz
    rw [seqBlockScore, npProd]
    refine List.prod_eq_zero ?_
    have h1 : (((durationOffsets b).map
        (fun off => t0 + transition_time + off)).map (c.score b.target)).prod
          = 0 :=
      List.prod_eq_zero (hz ▸ List.mem_map_of_mem _ ht)
    exact h1 ▸ List.mem_map_of_mem _ (List.mem_map_of_mem _ hc)

/-- Witness for C3 at a concrete input: one never-observable constraint
(zero at the first sample) forces a zero aggregate. -/
theorem c3_witness :
    seqBlockScore (allConstraints [cZero] (mkOb 1 10 none 1))
      (mkOb 1 10 none 1).target
      ((durationOffsets (mkOb 1 10 none 1)).map (fun off => 0 + 0 + off)) = 0 :=
  (c3_sequential_product_veto [cZero] (mkOb 1 10 none 1) 0 0).2 cZero
    (by norm_num [allConstraints, mkOb]) (0 + 0 + 0)
    (by norm_num [durationOffsets, mkOb]) rfl

/-- C4: the claim says a non-vetoed candidate's aggregate equals
`priority × Σ(all constraint×sample scores)` (here `2 × (1+3+5) = 18`).
The code never gets there: `assert constraint_result >= 0` on the
three-element per-sample result raises `ValueError` (ambiguous truth value
of a multi-element array), aborting the scheduling call. -/
theorem c4_summing_aggregate_never_computed :
    (2 : ℚ) * npSum [[1, 3, 5]] = 18
    ∧ summingEval ⟨[cLin], 0, 100, none, 0⟩ sep0 [] 0 (mkOb 1 4 none 2)
        = .error .valueError
    ∧ runSumming ⟨[cLin], 0, 100, none, 0⟩ sep0 5 [mkOb 1 4 none 2]
        = .error .valueError := by
  refine ⟨by norm_num [npSum], ?_, ?_⟩
  · norm_num [summingEval, summingConstraintLoop, npTruthy, allConstraints,
      durationOffsets, mkOb, cLin]
  · norm_num [runSumming, schedLoop, evalAll, summingEval,
      summingConstraintLoop, npTruthy, allConstraints, durationOffsets,
      mkOb, cLin]

/-- C8: the claim says that in `SummingScheduler` only a negative constraint
score aborts the call. In fact every constraint evaluation aborts with
`ValueError`: with three per-sample scores, `assert constraint_result >= 0`
asserts on a multi-element comparison result, whose truth value is
ambiguous — here with the everywhere-non-negative constraint `cOne`.
`SequentialScheduler` on the same input finishes normally. -/
theorem c8_nonneg_scores_still_abort :
    (∀ n t, 0 ≤ cOne.score n t)
    ∧ runSumming ⟨[cOne], 0, 3600, none, 600⟩ sep0 4 [mkOb 3 600 none 1]
        = .error .valueError
    ∧ obSpans (runSequential ⟨[cOne], 0, 3600, none, 600⟩ sep0 4
          [mkOb 3 600 none 1])
        = [(some 0, some 600, 600)] := by
  refine ⟨fun n t => by norm_num [cOne], ?_, ?_⟩
  · norm_num [runSumming, schedLoop, evalAll, summingEval,
      summingConstraintLoop, npTruthy, allConstraints, durationOffsets,
      mkOb, cOne]
  · norm_num [runSequential, schedLoop, evalAll, seqEval, callTransitioner,
      seqBlockScore, npProd, allConstraints, durationOffsets, npArgmax,
      npArgmax.go, scheduleOb, obSpans, TransitionBlock.make,
      TransitionBlock.setComponents, sumComponents, TransitionBlock.end_time,
      mkOb, cOne, sep0, List.getD, List.filterMap]

/-- C9: (re)assigning a `TransitionBlock`'s components always recomputes
`duration` as the sum of the component values, the constructor goes through
the same setter, and `end_time` is always `start_time + duration`. -/
theorem c9_transitionblock_derived_duration :
    ∀ (tb : TransitionBlock) (val : List (String × ℚ)),
      (tb.setComponents val).components = val
      ∧ (tb.setComponents val).duration = sumComponents val
      ∧ (tb.setComponents val).end_time
          = tb.startTime.map (fun s => s + sumComponents val)
      ∧ (∀ comps st, (TransitionBlock.make comps st).duration
          = sumComponents comps)
      ∧ (∀ t : TransitionBlock, t.end_time
          = t.startTime.map (fun s => s + t.duration)) := by
  intro tb val
  exact ⟨rfl, rfl, rfl, fun comps st => rfl, fun t => rfl⟩

/-- C6 counterexample: a never-observable block in the window `[0, 100]`
with `gap_time = 60` produces gap blocks `[0, 60]` and `[60, 120]`; the
second entry's `end_time = 120` exceeds the window end `100`. -/
theorem c6_counterexample :
    blockTimes (runSequential ⟨[cZero], 0, 100, some ⟨none, none⟩, 60⟩ sep0 5
        [mkOb 1 10 none 1])
      = [(some 0, some 60), (some 60, some 120)]
    ∧ ¬ ((120 : ℚ) ≤ 100) := by
  constructor
  · norm_num [runSequential, schedLoop, evalAll, seqEval, callTransitioner,
      Transitioner.call, seqBlockScore, npProd, allConstraints,
      durationOffsets, npArgmax, npArgmax.go, scheduleOb, blockTimes,
      TransitionBlock.make, TransitionBlock.setComponents, sumComponents,
      TransitionBlock.end_time, mkOb, cZero, sep0, List.getD, List.getLast?]
  · norm_num

/-- C7 counterexample: with the default `transitioner=None` and two
observable blocks, the second loop iteration calls
`self.transitioner(new_blocks[-1], ...)`, i.e. calls `None`, and the run
aborts with `TypeError` — an exit that is neither pending-list exhaustion
nor reaching the window end. -/
theorem c7_counterexample :
    runSequential ⟨[cOne], 0, 1000000, none, 1800⟩ sep0 5
        [mkOb 1 60 none 1, mkOb 2 60 none 1]
      = .error .typeError := by
  norm_num [runSequential, schedLoop, evalAll, seqEval, callTransitioner,
    seqBlockScore, npProd, allConstraints, durationOffsets, npArgmax,
    npArgmax.go, scheduleOb, mkOb, cOne, sep0, List.getD, List.getLast?]

/-- With `gap_time = 0` and a never-observable pending block, the loop makes
no progress at all: the guard stays true and `current_time` never advances,
so no amount of fuel completes the run — the Python loop runs forever. -/
theorem gap_time_zero_loop_diverges :
    ∀ (n : ℕ) (nbs : List Block),
      schedLoop (seqEval ⟨[cZero], 0, 100, some ⟨none, none⟩, 0⟩ sep0) 100 0 n
        [mkOb 1 10 none 1] nbs 0 = .fuelOut := by
  have heval : ∀ nbs' : List Block,
      seqEval ⟨[cZero], 0, 100, some ⟨none, none⟩, 0⟩ sep0 nbs' 0
        (mkOb 1 10 none 1) = .ok (none, 0) := by
    intro nbs'
    cases nbs' with
    | nil =>
      norm_num [seqEval, seqBlockScore, npProd, allConstraints,
        durationOffsets, mkOb, cZero]
    | cons x xs =>
      norm_num [seqEval, callTransitioner, Transitioner.call, seqBlockScore,
        npProd, allConstraints, durationOffsets, mkOb, cZero, List.getLast?]
  intro n
  induction n with
  | zero => intro nbs; norm_num [schedLoop]
  | succ n ih =>
    intro nbs
    rw [schedLoop]
    norm_num [evalAll, heval, npArgmax, npArgmax.go, List.getD]
    exact ih _

theorem sumComponents_singleton (s : String) (q : ℚ) :
    sumComponents [(s, q)] = q := by
  simp [sumComponents]

/-- Every evaluation result produced by the per-step loop comes from
evaluating one of the pending blocks. -/
theorem evalAll_ok_mem (eval : EvalFn) (nbs : List Block) (ct : ℚ) :
    ∀ (bs : List ObservingBlock) (rs : List (Option TransitionBlock × ℚ)),
      evalAll eval nbs ct bs = .ok rs →
      ∀ r ∈ rs, ∃ b, b ∈ bs ∧ eval nbs ct b = .ok r := by
  intro bs
  induction bs with
  | nil =>
    intro rs h r hr
    rw [evalAll] at h
    simp only [Except.ok.injEq] at h
    subst h
    simp at hr
  | cons b bs ih =>
    intro rs h r hr
    rw [evalAll] at h
    split at h
    · simp at h
    next r0 heq =>
      split at h
      · simp at h
      next rs0 heq2 =>
        simp only [Except.ok.injEq] at h
        subst h
        rcases List.mem_cons.mp hr with h | h
        · exact ⟨b, List.mem_cons_self b bs, h ▸ heq⟩
        · obtain ⟨b', hb', he'⟩ := ih rs0 heq2 r h
          exact ⟨b', List.mem_cons_of_mem b hb', he'⟩

/-- A `getD _ none` hit in a list of optional transitions is a member. -/
theorem getD_some_mem {α : Type} (l : List (Option α)) (n : ℕ) (a : α)
    (h : l.getD n none = some a) : some a ∈ l := by
  rw [List.getD_eq_getElem?_getD] at h
  cases hg : l[n]? with
  | none => rw [hg] at h; simp at h
  | some v =>
    rw [hg] at h
    simp only [Option.getD_some] at h
    obtain ⟨hlt, hv⟩ := List.getElem?_eq_some.mp hg
    exact h ▸ hv ▸ List.getElem_mem hlt

theorem gapBlock_start (g ct : ℚ) :
    bStart (.tb (TransitionBlock.make [("nothing_observable", g)] (some ct)))
      = ct := rfl

theorem gapBlock_end (g ct : ℚ) :
    bEnd (.tb (TransitionBlock.make [("nothing_observable", g)] (some ct)))
      = ct + g := by
  simp [bEnd, TransitionBlock.make, TransitionBlock.setComponents,
    TransitionBlock.end_time, sumComponents]

theorem scheduleOb_start (b : ObservingBlock) (ct g sc : ℚ) :
    bStart (.ob (scheduleOb b ct g sc)) = ct := rfl

theorem scheduleOb_end (b : ObservingBlock) (ct g sc : ℚ) :
    bEnd (.ob (scheduleOb b ct g sc)) = ct + g := rfl

theorem transBlock_start (tr : TransitionBlock) (ct : ℚ)
    (h : tr.startTime = some ct) : bStart (.tb tr) = ct := by
  simp [bStart, h]

theorem transBlock_end (tr : TransitionBlock) (ct : ℚ)
    (h : tr.startTime = some ct) : bEnd (.tb tr) = ct + tr.duration := by
  simp [bEnd, TransitionBlock.end_time, h]

/-- Loop invariant of the shared scheduling loop: starting from a
chronologically consistent partial schedule, every finished schedule
consists of entries with `start ≤ end`, pairwise ordered end-before-start
(hence non-overlapping and sorted), all starting at or after `lo`, and all
ending by the final `current_time`. -/
theorem schedLoop_done_invariant (eval : EvalFn) (e g lo : ℚ)
    (hg : 0 ≤ g) (hev : EvalTransOk eval) :
    ∀ (n : ℕ) (bs : List ObservingBlock) (nbs : List Block) (ct : ℚ),
      lo ≤ ct →
      (∀ x ∈ nbs, bEnd x ≤ ct) →
      (∀ x ∈ nbs, bStart x ≤ bEnd x) →
      (∀ x ∈ nbs, lo ≤ bStart x) →
      nbs.Pairwise (fun x y => bEnd x ≤ bStart y) →
      ∀ sch rest ct', schedLoop eval e g n bs nbs ct = .done sch rest ct' →
        (∀ x ∈ sch, bStart x ≤ bEnd x)
        ∧ sch.Pairwise (fun x y => bEnd x ≤ bStart y)
        ∧ (∀ x ∈ sch, lo ≤ bStart x)
        ∧ (∀ x ∈ sch, bEnd x ≤ ct') := by
  intro n
  induction n with
  | zero =>
    intro bs nbs ct hlo hend hse hlos hpw sch rest ct' h
    rw [schedLoop] at h
    split at h
    · exact absurd h (by simp)
    · simp only [RunResult.done.injEq] at h
      obtain ⟨h1, _, h3⟩ := h
      subst h1; subst h3
      exact ⟨hse, hpw, hlos, hend⟩
  | succ n ih =>
    intro bs nbs ct hlo hend hse hlos hpw sch rest ct' h
    rw [schedLoop] at h
    split at h
    case isTrue hcond =>
      split at h
      · exact absurd h (by simp)
      next rs heval =>
        simp only at h
        split at h
        case isTrue hzero =>
          -- gap branch
          refine ih bs _ (ct + g) (by linarith) ?_ ?_ ?_ ?_ sch rest ct' h
          · intro x hx
            rcases List.mem_append.mp hx with hx | hx
            · have := hend x hx; linarith
            · rw [List.mem_singleton.mp hx, gapBlock_end]
          · intro x hx
            rcases List.mem_append.mp hx with hx | hx
            · exact hse x hx
            · rw [List.mem_singleton.mp hx, gapBlock_start, gapBlock_end]
              linarith
          · intro x hx
            rcases List.mem_append.mp hx with hx | hx
            · exact hlos x hx
            · rw [List.mem_singleton.mp hx, gapBlock_start]; exact hlo
          · refine List.pairwise_append.mpr ⟨hpw, List.pairwise_singleton .., ?_⟩
            intro a ha b hb
            rw [List.mem_singleton.mp hb, gapBlock_start]
            exact hend a ha
        case isFalse hzero =>
          split at h
          next tr htr =>
            -- a transition block is inserted before the scheduled block
            have hmem : some tr ∈ rs.map (fun r => r.1) := getD_some_mem _ _ _ htr
            obtain ⟨r, hr, hr1⟩ := List.mem_map.mp hmem
            obtain ⟨b, _, hbev⟩ := evalAll_ok_mem eval nbs ct bs rs heval r hr
            have hok : eval nbs ct b = .ok (some tr, r.2) := by
              rw [hbev]; exact congrArg Except.ok (Prod.ext hr1 rfl)
            obtain ⟨hst, hdur⟩ := hev nbs ct b tr r.2 hok
            refine ih _ _ (ct + tr.duration + g) (by linarith) ?_ ?_ ?_ ?_ sch rest ct' h
            · intro x hx
              rcases List.mem_append.mp hx with hx | hx
              · have := hend x hx; linarith
              · rcases List.mem_cons.mp hx with hx | hx
                · rw [hx, transBlock_end tr ct hst]; linarith
                · rw [List.mem_singleton.mp hx, scheduleOb_end]
            · intro x hx
              rcases List.mem_append.mp hx with hx | hx
              · exact hse x hx
              · rcases List.mem_cons.mp hx with hx | hx
                · rw [hx, transBlock_start tr ct hst, transBlock_end tr ct hst]
                  linarith
                · rw [List.mem_singleton.mp hx, scheduleOb_start, scheduleOb_end]
                  linarith
            · intro x hx
              rcases List.mem_append.mp hx with hx | hx
              · exact hlos x hx
              · rcases List.mem_cons.mp hx with hx | hx
                · rw [hx, transBlock_start tr ct hst]; exact hlo
                · rw [List.mem_singleton.mp hx, scheduleOb_start]; linarith
            · refine List.pairwise_append.mpr ⟨hpw, ?_, ?_⟩
              · refine List.pairwise_cons.mpr ⟨?_, List.pairwise_singleton ..⟩
                intro y hy
                rw [List.mem_singleton.mp hy, transBlock_end tr ct hst,
                  scheduleOb_start]
              · intro a ha y hy
                rcases List.mem_cons.mp hy with hy | hy
                · rw [hy, transBlock_start tr ct hst]; exact hend a ha
                · rw [List.mem_singleton.mp hy, scheduleOb_start]
                  have := hend a ha; linarith
          next htr =>
            -- no transition needed
            refine ih _ _ (ct + g) (by linarith) ?_ ?_ ?_ ?_ sch rest ct' h
            · intro x hx
              rcases List.mem_append.mp hx with hx | hx
              · have := hend x hx; linarith
              · rw [List.mem_singleton.mp hx, scheduleOb_end]
            · intro x hx
              rcases List.mem_append.mp hx with hx | hx
              · exact hse x hx
              · rw [List.mem_singleton.mp hx, scheduleOb_start, scheduleOb_end]
                linarith
            · intro x hx
              rcases List.mem_append.mp hx with hx | hx
              · exact hlos x hx
              · rw [List.mem_singleton.mp hx, scheduleOb_start]; exact hlo
            · refine List.pairwise_append.mpr ⟨hpw, List.pairwise_singleton .., ?_⟩
              intro a ha y hy
              rw [List.mem_singleton.mp hy, scheduleOb_start]
              exact hend a ha
    case isFalse hcond =>
      simp only [RunResult.done.injEq] at h
      obtain ⟨h1, _, h3⟩ := h
      subst h1; subst h3
      exact ⟨hse, hpw, hlos, hend⟩

/-- Any transition a `Transitioner` call returns is anchored at the given
start time and, when the separation collaborator and the slew rate are
non-negative, has non-negative duration. -/
theorem Transitioner.call_transOk (t : Transitioner) (sep : ℕ → ℕ → ℚ → ℚ)
    (hsep : ∀ a b x, 0 ≤ sep a b x)
    (hrate : ∀ r, t.slew_rate = some r → 0 ≤ r) :
    ∀ (old : Option Block) (nb : ObservingBlock) (st : ℚ)
      (tr : TransitionBlock),
      t.call sep old nb st = .ok (some tr) →
      tr.startTime = some st ∧ 0 ≤ tr.duration := by
  obtain ⟨sr, irt⟩ := t
  intro old nb st tr h
  cases irt with
  | some l => simp [Transitioner.call] at h
  | none =>
    cases sr with
    | none =>
      rcases old with _ | blk
      · simp [Transitioner.call] at h
      · rcases blk with a | a <;> simp [Transitioner.call] at h
    | some rate =>
      have hr0 : (0:ℚ) ≤ rate := hrate rate rfl
      rcases old with _ | blk
      · simp [Transitioner.call] at h
      · rcases blk with a | a
        · simp only [Transitioner.call, Option.isSome_none, Bool.false_eq_true,
            if_false, List.isEmpty_cons, Except.ok.injEq,
            Option.some.injEq] at h
          subst h
          refine ⟨rfl, ?_⟩
          show 0 ≤ sumComponents
            [("slew_time", sep a.target nb.target st / rate)]
          rw [sumComponents_singleton]
          exact div_nonneg (hsep _ _ _) hr0
        · simp only [Transitioner.call, Option.isSome_none, Bool.false_eq_true,
            if_false, List.isEmpty_cons, Except.ok.injEq,
            Option.some.injEq] at h
          subst h
          refine ⟨rfl, ?_⟩
          show 0 ≤ sumComponents [("slew_time", 0)]
          rw [sumComponents_singleton]

/-- The sequential per-candidate evaluation satisfies `EvalTransOk` when the
separation collaborator and any configured slew rate are non-negative. -/
theorem seqEval_transOk (s : SchedConfig) (sep : ℕ → ℕ → ℚ → ℚ)
    (hsep : ∀ a b x, 0 ≤ sep a b x)
    (hrate : ∀ t r, s.transitioner = some t → t.slew_rate = some r → 0 ≤ r) :
    EvalTransOk (seqEval s sep) := by
  intro nbs ct b tr sc h
  rw [seqEval] at h
  split at h
  · simp at h
  next otr heq =>
    simp only [Except.ok.injEq, Prod.mk.injEq] at h
    obtain ⟨h1, _⟩ := h
    subst h1
    split at heq
    · cases ht : s.transitioner with
      | none => rw [ht] at heq; simp [callTransitioner] at heq
      | some t' =>
        rw [ht] at heq
        simp only [callTransitioner] at heq
        exact Transitioner.call_transOk t' sep hsep
          (fun r hr => hrate t' r ht hr) _ _ _ _ heq
    · simp at heq

/-- The summing per-candidate evaluation satisfies `EvalTransOk` under the
same conditions. -/
theorem summingEval_transOk (s : SchedConfig) (sep : ℕ → ℕ → ℚ → ℚ)
    (hsep : ∀ a b x, 0 ≤ sep a b x)
    (hrate : ∀ t r, s.transitioner = some t → t.slew_rate = some r → 0 ≤ r) :
    EvalTransOk (summingEval s sep) := by
  intro nbs ct b tr sc h
  rw [summingEval] at h
  split at h
  · simp at h
  next otr heq =>
    split at h
    · dsimp only at h
      split at h <;> simp at h
    next tr2 =>
      dsimp only at h
      split at h
      · simp at h
      · simp only [Except.ok.injEq, Prod.mk.injEq] at h
        obtain ⟨h1, _⟩ := h
        have h2 : tr2 = tr := Option.some_inj.mp h1
        subst h2
        split at heq
        · cases ht : s.transitioner with
          | none => rw [ht] at heq; simp [callTransitioner] at heq
          | some t2 =>
            rw [ht] at heq
            simp only [callTransitioner] at heq
            exact Transitioner.call_transOk t2 sep hsep
              (fun r hr => hrate t2 r ht hr) _ _ _ _ heq
        · simp at heq

/-- C5: every schedule returned by a `SequentialScheduler` or
`SummingScheduler` call (the driver returns the strategy's output unchanged,
`already_sorted = True`) has entries with `start ≤ end`, consecutive-entry
intervals that never overlap (`end x ≤ start y` for every earlier `x`), and
is sorted by `start_time` — assuming non-negative `gap_time`, separation
values and slew rate (hence non-negative transition durations). -/
theorem c5_schedule_sorted_nonoverlapping (s : SchedConfig)
    (sep : ℕ → ℕ → ℚ → ℚ) (hg : 0 ≤ s.gap_time)
    (hsep : ∀ a b t, 0 ≤ sep a b t)
    (hrate : ∀ t r, s.transitioner = some t → t.slew_rate = some r → 0 ≤ r) :
    ∀ fuel blocks sch rest ct,
      (runSequential s sep fuel blocks = .done sch rest ct
        ∨ runSumming s sep fuel blocks = .done sch rest ct) →
      (∀ x ∈ sch, bStart x ≤ bEnd x)
      ∧ sch.Pairwise (fun x y => bEnd x ≤ bStart y)
      ∧ sch.Pairwise (fun x y => bStart x ≤ bStart y) := by
  intro fuel blocks sch rest ct hrun
  have key : ∀ ev : EvalFn, EvalTransOk ev →
      schedLoop ev s.end_time s.gap_time fuel blocks [] s.start_time
        = .done sch rest ct →
      (∀ x ∈ sch, bStart x ≤ bEnd x)
      ∧ sch.Pairwise (fun x y => bEnd x ≤ bStart y)
      ∧ sch.Pairwise (fun x y => bStart x ≤ bStart y) := by
    intro ev hev hdone
    obtain ⟨h1, h2, _, _⟩ :=
      schedLoop_done_invariant ev s.end_time s.gap_time s.start_time hg hev
        fuel blocks [] s.start_time le_rfl (by simp) (by simp) (by simp)
        (by simp) sch rest ct hdone
    refine ⟨h1, h2, ?_⟩
    exact h2.imp_of_mem (fun ha _ hr => le_trans (h1 _ ha) hr)
  rcases hrun with hrun | hrun
  · exact key (seqEval s sep) (seqEval_transOk s sep hsep hrate) hrun
  · exact key (summingEval s sep) (summingEval_transOk s sep hsep hrate) hrun

/-- Witness for C5: a concrete configuration satisfying the hypotheses. -/
theorem c5_witness :
    (0:ℚ) ≤ 1800
    ∧ (∀ fuel blocks sch rest ct,
        (runSequential ⟨[cOne], 0, 7200, none, 1800⟩ sep0 fuel blocks
            = .done sch rest ct
          ∨ runSumming ⟨[cOne], 0, 7200, none, 1800⟩ sep0 fuel blocks
            = .done sch rest ct) →
        (∀ x ∈ sch, bStart x ≤ bEnd x)
        ∧ sch.Pairwise (fun x y => bEnd x ≤ bStart y)
        ∧ sch.Pairwise (fun x y => bStart x ≤ bStart y)) :=
  ⟨by norm_num,
   c5_schedule_sorted_nonoverlapping ⟨[cOne], 0, 7200, none, 1800⟩ sep0
     (by norm_num) (fun a b t => le_refl 0) (fun t r h => by cases h)⟩

/-- C6 (amended): every entry of a finished schedule starts at or after the
window start, but entries may end (and, after a long transition, even
start) past the window end — the loop only checks `current_time < end_time`
before committing an entry, it never clips against the window end. -/
theorem c6_entries_start_in_window (s : SchedConfig)
    (sep : ℕ → ℕ → ℚ → ℚ) (hg : 0 ≤ s.gap_time)
    (hsep : ∀ a b t, 0 ≤ sep a b t)
    (hrate : ∀ t r, s.transitioner = some t → t.slew_rate = some r → 0 ≤ r) :
    ∀ fuel blocks sch rest ct,
      (runSequential s sep fuel blocks = .done sch rest ct
        ∨ runSumming s sep fuel blocks = .done sch rest ct) →
      ∀ x ∈ sch, s.start_time ≤ bStart x := by
  intro fuel blocks sch rest ct hrun
  have key : ∀ ev : EvalFn, EvalTransOk ev →
      schedLoop ev s.end_time s.gap_time fuel blocks [] s.start_time
        = .done sch rest ct →
      ∀ x ∈ sch, s.start_time ≤ bStart x := by
    intro ev hev hdone
    obtain ⟨_, _, h3, _⟩ :=
      schedLoop_done_invariant ev s.end_time s.gap_time s.start_time hg hev
        fuel blocks [] s.start_time le_rfl (by simp) (by simp) (by simp)
        (by simp) sch rest ct hdone
    exact h3
  rcases hrun with hrun | hrun
  · exact key (seqEval s sep) (seqEval_transOk s sep hsep hrate) hrun
  · exact key (summingEval s sep) (summingEval_transOk s sep hsep hrate) hrun

/-- Witness for C6's amended statement at a concrete configuration. -/
theorem c6_witness :
    (0:ℚ) ≤ 60
    ∧ (∀ fuel blocks sch rest ct,
        (runSequential ⟨[cZero], 0, 100, some ⟨none, none⟩, 60⟩ sep0 fuel
            blocks = .done sch rest ct
          ∨ runSumming ⟨[cZero], 0, 100, some ⟨none, none⟩, 60⟩ sep0 fuel
            blocks = .done sch rest ct) →
        ∀ x ∈ sch, (0:ℚ) ≤ bStart x) :=
  ⟨by norm_num,
   c6_entries_start_in_window ⟨[cZero], 0, 100, some ⟨none, none⟩, 60⟩ sep0
     (by norm_num) (fun a b t => le_refl 0)
     (fun t r h hr => by cases Option.some_inj.mp h ▸ hr)⟩

theorem npArgmax_go_lt :
    ∀ (ys : List ℚ) (best : ℕ) (bestV : ℚ) (i : ℕ), best < i →
      npArgmax.go best bestV i ys < i + ys.length := by
  intro ys
  induction ys with
  | nil =>
    intro best bestV i h
    rw [npArgmax.go]
    omega
  | cons y ys ih =>
    intro best bestV i h
    rw [npArgmax.go]
    split
    · have h2 := ih i y (i + 1) (Nat.lt_succ_self i)
      simp only [List.length_cons]
      omega
    · have h2 := ih best bestV (i + 1) (by omega)
      simp only [List.length_cons]
      omega

/-- The index `np.argmax` returns for a nonempty list is a valid index. -/
theorem npArgmax_lt_length (xs : List ℚ) (h : xs ≠ []) :
    npArgmax xs < xs.length := by
  cases xs with
  | nil => exact absurd rfl h
  | cons x rest =>
    rw [npArgmax]
    have h2 := npArgmax_go_lt rest 0 x 1 Nat.one_pos
    simp only [List.length_cons]
    omega

/-- With an `EvalOk` evaluation function, the per-step loop over pending
blocks never raises and returns one result per block. -/
theorem evalAll_ok (eval : EvalFn) (hev : EvalOk eval) (nbs : List Block)
    (ct : ℚ) :
    ∀ bs : List ObservingBlock,
      ∃ rs, evalAll eval nbs ct bs = .ok rs ∧ rs.length = bs.length ∧
        ∀ r ∈ rs, ∀ tr, r.1 = some tr → 0 ≤ tr.duration := by
  intro bs
  induction bs with
  | nil => exact ⟨[], rfl, rfl, by simp⟩
  | cons b bs ih =>
    obtain ⟨r, hr, hrtr⟩ := hev nbs ct b
    obtain ⟨rs, hrs, hlen, hall⟩ := ih
    refine ⟨r :: rs, ?_, by simp [hlen], ?_⟩
    · rw [evalAll, hr, hrs]
    · intro r2 h2 tr htr
      rcases List.mem_cons.mp h2 with h2 | h2
      · exact hrtr tr (h2 ▸ htr)
      · exact hall r2 h2 tr htr

theorem ceil_steps_pos (e g ct : ℚ) (hg : 0 < g) (hlt : ct < e) :
    0 < (⌈(e - ct) / g⌉).toNat := by
  have h : 0 < ⌈(e - ct) / g⌉ := Int.ceil_pos.mpr (div_pos (by linarith) hg)
  omega

theorem ceil_steps_decrease (e g ct : ℚ) (hg : 0 < g) (hlt : ct < e) :
    (⌈(e - (ct + g)) / g⌉).toNat < (⌈(e - ct) / g⌉).toNat := by
  have hg' : g ≠ 0 := ne_of_gt hg
  have h1 : (e - (ct + g)) / g = (e - ct) / g - 1 := by
    field_simp
    ring
  have hpos : 0 < ⌈(e - ct) / g⌉ := Int.ceil_pos.mpr (div_pos (by linarith) hg)
  have h2 : ⌈(e - ct) / g - 1⌉ = ⌈(e - ct) / g⌉ - 1 := Int.ceil_sub_one _
  rw [h1, h2]
  omega

theorem ceil_steps_mono (e g ct ct2 : ℚ) (hg : 0 < g) (hle : ct ≤ ct2) :
    (⌈(e - ct2) / g⌉).toNat ≤ (⌈(e - ct) / g⌉).toNat := by
  have hdiv : (e - ct2) / g ≤ (e - ct) / g :=
    div_le_div_of_nonneg_right (sub_le_sub_left hle e) hg.le
  have h := Int.ceil_le_ceil hdiv
  omega

/-- A naturally finished loop run exits only because the pending list is
empty or `current_time` reached the window end. -/
theorem schedLoop_done_exit (eval : EvalFn) (e g : ℚ) :
    ∀ (n : ℕ) (bs : List ObservingBlock) (nbs : List Block) (ct : ℚ)
      (sch : List Block) (rest : List ObservingBlock) (ct' : ℚ),
      schedLoop eval e g n bs nbs ct = .done sch rest ct' →
      rest = [] ∨ ¬ ct' < e := by
  intro n
  induction n with
  | zero =>
    intro bs nbs ct sch rest ct' h
    rw [schedLoop] at h
    split at h
    · simp at h
    next hcond =>
      simp only [RunResult.done.injEq] at h
      obtain ⟨_, h2, h3⟩ := h
      subst h2; subst h3
      rcases not_and_or.mp hcond with hb | hlt
      · left; exact List.length_eq_zero.mp (by omega)
      · right; exact hlt
  | succ n ih =>
    intro bs nbs ct sch rest ct' h
    rw [schedLoop] at h
    split at h
    case isTrue hcond =>
      split at h
      · simp at h
      next rs heval =>
        simp only at h
        split at h
        · exact ih _ _ _ _ _ _ h
        · split at h
          · exact ih _ _ _ _ _ _ h
          · exact ih _ _ _ _ _ _ h
    case isFalse hcond =>
      simp only [RunResult.done.injEq] at h
      obtain ⟨_, h2, h3⟩ := h
      subst h2; subst h3
      rcases not_and_or.mp hcond with hb | hlt
      · left; exact List.length_eq_zero.mp (by omega)
      · right; exact hlt

/-- With positive `gap_time` and an `EvalOk` evaluation function, fuel
`|blocks| + ⌈(end_time − current_time)/gap_time⌉` suffices: the loop
terminates. -/
theorem schedLoop_terminates (eval : EvalFn) (e g : ℚ) (hg : 0 < g)
    (hev : EvalOk eval) :
    ∀ (n : ℕ) (bs : List ObservingBlock) (nbs : List Block) (ct : ℚ),
      bs.length + (⌈(e - ct) / g⌉).toNat ≤ n →
      ∃ sch rest ct', schedLoop eval e g n bs nbs ct = .done sch rest ct' := by
  intro n
  induction n with
  | zero =>
    intro bs nbs ct hn
    rw [schedLoop]
    rw [if_neg]
    · exact ⟨nbs, bs, ct, rfl⟩
    · rintro ⟨hb, hlt⟩
      have := ceil_steps_pos e g ct hg hlt
      omega
  | succ n ih =>
    intro bs nbs ct hn
    rw [schedLoop]
    by_cases hcond : 0 < bs.length ∧ ct < e
    · rw [if_pos hcond]
      obtain ⟨rs, hrs, hlen, hall⟩ := evalAll_ok eval hev nbs ct bs
      rw [hrs]
      dsimp only
      by_cases hz : (rs.map (fun r => r.2)).getD
          (npArgmax (rs.map (fun r => r.2))) 0 = 0
      · rw [if_pos hz]
        apply ih
        have hdec := ceil_steps_decrease e g ct hg hcond.2
        omega
      · rw [if_neg hz]
        have hbest : npArgmax (rs.map (fun r => r.2)) < bs.length := by
          have hne : rs.map (fun r => r.2) ≠ [] := by
            intro hnil
            have h2 := congrArg List.length hnil
            simp only [List.length_map, List.length_nil, hlen] at h2
            omega
          have h3 := npArgmax_lt_length _ hne
          simp only [List.length_map, hlen] at h3
          exact h3
        have herase :
            (bs.eraseIdx (npArgmax (rs.map (fun r => r.2)))).length
              = bs.length - 1 := List.length_eraseIdx_of_lt hbest
        cases htr : (rs.map (fun r => r.1)).getD
            (npArgmax (rs.map (fun r => r.2))) none with
        | some tr =>
          have hdur : 0 ≤ tr.duration := by
            have hmem := getD_some_mem _ _ _ htr
            obtain ⟨r, hr, hr1⟩ := List.mem_map.mp hmem
            exact hall r hr tr hr1
          apply ih
          rw [herase]
          have hmono := ceil_steps_mono e g ct (ct + tr.duration + g) hg
            (by linarith)
          omega
        | none =>
          apply ih
          rw [herase]
          have hmono := ceil_steps_mono e g ct (ct + g) hg (by linarith)
          omega
    · rw [if_neg hcond]
      exact ⟨nbs, bs, ct, rfl⟩

/-- With no reconfiguration table configured, a `Transitioner` call always
succeeds, and any returned transition has non-negative duration. -/
theorem Transitioner.call_ok (t : Transitioner) (sep : ℕ → ℕ → ℚ → ℚ)
    (hirt : t.instrument_reconfig_times = none)
    (hsep : ∀ a b x, 0 ≤ sep a b x)
    (hrate : ∀ r, t.slew_rate = some r → 0 ≤ r) :
    ∀ (old : Option Block) (nb : ObservingBlock) (st : ℚ),
      ∃ o, t.call sep old nb st = .ok o ∧
        ∀ tr, o = some tr → 0 ≤ tr.duration := by
  obtain ⟨sr, irt⟩ := t
  intro old nb st
  have hirt' : irt = none := hirt
  subst hirt'
  cases sr with
  | none =>
    rcases old with _ | blk
    · exact ⟨none, rfl, by simp⟩
    · rcases blk with a | a
      · exact ⟨none, rfl, by simp⟩
      · exact ⟨none, rfl, by simp⟩
  | some rate =>
    have hr0 : (0:ℚ) ≤ rate := hrate rate rfl
    rcases old with _ | blk
    · exact ⟨none, rfl, by simp⟩
    · rcases blk with a | a
      · refine ⟨some (TransitionBlock.make
          [("slew_time", sep a.target nb.target st / rate)] (some st)),
          rfl, ?_⟩
        intro tr htr
        rw [← Option.some_inj.mp htr]
        show 0 ≤ sumComponents [("slew_time", sep a.target nb.target st / rate)]
        rw [sumComponents_singleton]
        exact div_nonneg (hsep _ _ _) hr0
      · refine ⟨some (TransitionBlock.make [("slew_time", 0)] (some st)),
          rfl, ?_⟩
        intro tr htr
        rw [← Option.some_inj.mp htr]
        show 0 ≤ sumComponents [("slew_time", 0)]
        rw [sumComponents_singleton]

/-- The sequential evaluation is `EvalOk` when a transitioner without a
reconfiguration table is configured (so its calls never raise). -/
theorem seqEval_evalOk (s : SchedConfig) (sep : ℕ → ℕ → ℚ → ℚ)
    (t : Transitioner) (ht : s.transitioner = some t)
    (hirt : t.instrument_reconfig_times = none)
    (hsep : ∀ a b x, 0 ≤ sep a b x)
    (hrate : ∀ r, t.slew_rate = some r → 0 ≤ r) :
    EvalOk (seqEval s sep) := by
  intro nbs ct b
  simp only [seqEval]
  by_cases hn : nbs.length > 0
  · rw [if_pos hn, ht]
    simp only [callTransitioner]
    obtain ⟨o, ho, hdur⟩ := Transitioner.call_ok t sep hirt hsep hrate
      nbs.getLast? b ct
    rw [ho]
    exact ⟨(o, _), rfl, fun tr htr => hdur tr htr⟩
  · rw [if_neg hn]
    exact ⟨(none, _), rfl, by simp⟩

/-- C7 (amended): provided `gap_time > 0` and every per-candidate
evaluation succeeds with non-negative transition durations, the shared
scheduling loop of `SequentialScheduler` and `SummingScheduler` terminates,
and a finished run exits only by pending-list exhaustion or by
`current_time` reaching the window end. (As literally stated the claim
fails: with the default `transitioner = None` the loop aborts with a
`TypeError` as soon as a transition is computed, and with `gap_time = 0`
and nothing observable it never terminates.) -/
theorem c7_loop_termination (eval : EvalFn) (e g : ℚ) (hg : 0 < g)
    (hev : EvalOk eval) (bs : List ObservingBlock) (nbs : List Block)
    (ct : ℚ) :
    (∃ n sch rest ct', schedLoop eval e g n bs nbs ct = .done sch rest ct')
    ∧ (∀ n sch rest ct',
        schedLoop eval e g n bs nbs ct = .done sch rest ct' →
        rest = [] ∨ ¬ ct' < e) := by
  constructor
  · obtain ⟨sch, rest, ct', h⟩ := schedLoop_terminates eval e g hg hev
      (bs.length + (⌈(e - ct) / g⌉).toNat) bs nbs ct le_rfl
    exact ⟨_, sch, rest, ct', h⟩
  · intro n sch rest ct' h
    exact schedLoop_done_exit eval e g n bs nbs ct sch rest ct' h

/-- Witness for C7's amended statement: a concrete sequential configuration
with a benign transitioner and a positive gap. -/
theorem c7_witness :
    (0:ℚ) < 1800
    ∧ EvalOk (seqEval ⟨[cOne], 0, 7200, some ⟨none, none⟩, 1800⟩ sep0)
    ∧ ((∃ n sch rest ct',
          schedLoop (seqEval ⟨[cOne], 0, 7200, some ⟨none, none⟩, 1800⟩ sep0)
            7200 1800 n [mkOb 1 3600 none 1] [] 0 = .done sch rest ct')
      ∧ (∀ n sch rest ct',
          schedLoop (seqEval ⟨[cOne], 0, 7200, some ⟨none, none⟩, 1800⟩ sep0)
            7200 1800 n [mkOb 1 3600 none 1] [] 0 = .done sch rest ct' →
          rest = [] ∨ ¬ ct' < 7200)) := by
  have hev : EvalOk (seqEval ⟨[cOne], 0, 7200, some ⟨none, none⟩, 1800⟩ sep0) :=
    seqEval_evalOk _ sep0 ⟨none, none⟩ rfl rfl (fun a b x => le_refl 0)
      (fun r h => by cases h)
  exact ⟨by norm_num, hev,
    c7_loop_termination _ 7200 1800 (by norm_num) hev [mkOb 1 3600 none 1] [] 0⟩

theorem stripOb_target (b1 b2 : ObservingBlock)
    (h : stripPriorityOb b1 = stripPriorityOb b2) : b1.target = b2.target := by
  have h2 := congrArg ObservingBlock.target h
  exact h2

theorem stripOb_duration (b1 b2 : ObservingBlock)
    (h : stripPriorityOb b1 = stripPriorityOb b2) : b1.duration = b2.duration := by
  have h2 := congrArg ObservingBlock.duration h
  exact h2

theorem stripOb_constraints (b1 b2 : ObservingBlock)
    (h : stripPriorityOb b1 = stripPriorityOb b2) :
    b1.constraints = b2.constraints := by
  have h2 := congrArg ObservingBlock.constraints h
  exact h2

theorem map_eraseIdx {α β : Type} (f : α → β) :
    ∀ (l : List α) (i : ℕ), (l.eraseIdx i).map f = (l.map f).eraseIdx i := by
  intro l
  induction l with
  | nil => intro i; simp
  | cons x xs ih => intro i; cases i <;> simp [List.eraseIdx, ih]

/-- Indexing into priority-equivalent pending lists yields
priority-equivalent blocks. -/
theorem getD_strip (bs1 bs2 : List ObservingBlock) (i : ℕ)
    (h : bs1.map stripPriorityOb = bs2.map stripPriorityOb) :
    stripPriorityOb (bs1.getD i default)
      = stripPriorityOb (bs2.getD i default) := by
  have h1 := congrArg (fun l => l[i]?) h
  simp only [List.getElem?_map] at h1
  rw [List.getD_eq_getElem?_getD, List.getD_eq_getElem?_getD]
  cases e1 : bs1[i]? with
  | none =>
    cases e2 : bs2[i]? with
    | none => rfl
    | some v => rw [e1, e2] at h1; simp at h1
  | some v =>
    cases e2 : bs2[i]? with
    | none => rw [e1, e2] at h1; simp at h1
    | some w =>
      rw [e1, e2] at h1
      simp only [Option.map_some'] at h1
      simp only [Option.getD_some]
      exact Option.some_inj.mp h1

/-- Committing a block preserves priority equivalence. -/
theorem scheduleOb_strip (b1 b2 : ObservingBlock)
    (h : stripPriorityOb b1 = stripPriorityOb b2) (ct g sc : ℚ) :
    stripPriorityOb (scheduleOb b1 ct g sc)
      = stripPriorityOb (scheduleOb b2 ct g sc) := by
  have h1 : b1.target = b2.target := stripOb_target b1 b2 h
  have h2 : b1.duration = b2.duration := stripOb_duration b1 b2 h
  have h3 : b1.constraints = b2.constraints := stripOb_constraints b1 b2 h
  simp [stripPriorityOb, scheduleOb, h1, h2, h3]

/-- A `Transitioner` call reads only the old block's kind and target and the
new block's target — never a priority. -/
theorem Transitioner.call_strip (t : Transitioner) (sep : ℕ → ℕ → ℚ → ℚ)
    (o1 o2 : Option Block)
    (ho : o1.map stripPriorityBlock = o2.map stripPriorityBlock)
    (nb1 nb2 : ObservingBlock)
    (hb : stripPriorityOb nb1 = stripPriorityOb nb2) (st : ℚ) :
    t.call sep o1 nb1 st = t.call sep o2 nb2 st := by
  have htgt : nb1.target = nb2.target := stripOb_target nb1 nb2 hb
  obtain ⟨sr, irt⟩ := t
  cases sr with
  | none =>
    rcases o1 with _ | b1 <;> rcases o2 with _ | b2
    · rfl
    · rcases b2 with a2 | a2 <;> rfl
    · rcases b1 with a1 | a1 <;> rfl
    · rcases b1 with a1 | a1 <;> rcases b2 with a2 | a2 <;> rfl
  | some rate =>
    rcases o1 with _ | b1 <;> rcases o2 with _ | b2
    · rfl
    · exact Option.noConfusion ho
    · exact Option.noConfusion ho
    · have ho2 : stripPriorityBlock b1 = stripPriorityBlock b2 :=
        Option.some_inj.mp ho
      rcases b1 with a1 | a1 <;> rcases b2 with a2 | a2
      · have ha : stripPriorityOb a1 = stripPriorityOb a2 := by
          injection ho2
        have htgta : a1.target = a2.target := stripOb_target a1 a2 ha
        simp only [Transitioner.call, htgta, htgt]
      · exact Block.noConfusion ho2
      · exact Block.noConfusion ho2
      · rfl

/-- The sequential per-candidate evaluation depends only on the
priority-stripped view of its inputs: it never reads `priority`. -/
theorem seqEval_strip (s : SchedConfig) (sep : ℕ → ℕ → ℚ → ℚ)
    (nbs1 nbs2 : List Block)
    (hn : nbs1.map stripPriorityBlock = nbs2.map stripPriorityBlock)
    (ct : ℚ) (b1 b2 : ObservingBlock)
    (hb : stripPriorityOb b1 = stripPriorityOb b2) :
    seqEval s sep nbs1 ct b1 = seqEval s sep nbs2 ct b2 := by
  have hlen : nbs1.length = nbs2.length := by
    simpa using congrArg List.length hn
  have hlast : nbs1.getLast?.map stripPriorityBlock
      = nbs2.getLast?.map stripPriorityBlock := by
    rw [← List.getLast?_map, ← List.getLast?_map, hn]
  have hdur : b1.duration = b2.duration := stripOb_duration b1 b2 hb
  have hcons : b1.constraints = b2.constraints := stripOb_constraints b1 b2 hb
  have htgt : b1.target = b2.target := stripOb_target b1 b2 hb
  have hcall : callTransitioner s.transitioner sep nbs1.getLast? b1 ct
      = callTransitioner s.transitioner sep nbs2.getLast? b2 ct := by
    cases ht : s.transitioner with
    | none => rfl
    | some t => exact Transitioner.call_strip t sep _ _ hlast _ _ hb ct
  simp only [seqEval, hlen, hcall, allConstraints, durationOffsets, hdur,
    hcons, htgt]

/-- The per-step evaluation of all pending candidates is
priority-independent. -/
theorem evalAll_strip (s : SchedConfig) (sep : ℕ → ℕ → ℚ → ℚ) :
    ∀ (bs1 bs2 : List ObservingBlock),
      bs1.map stripPriorityOb = bs2.map stripPriorityOb →
      ∀ (nbs1 nbs2 : List Block),
        nbs1.map stripPriorityBlock = nbs2.map stripPriorityBlock →
        ∀ ct, evalAll (seqEval s sep) nbs1 ct bs1
          = evalAll (seqEval s sep) nbs2 ct bs2 := by
  intro bs1
  induction bs1 with
  | nil =>
    intro bs2 h nbs1 nbs2 hn ct
    cases bs2 with
    | nil => rfl
    | cons b2 bs2 => simp at h
  | cons b1 bs1 ih =>
    intro bs2 h nbs1 nbs2 hn ct
    cases bs2 with
    | nil => simp at h
    | cons b2 bs2 =>
      simp only [List.map_cons, List.cons.injEq] at h
      obtain ⟨hb, hbs⟩ := h
      rw [evalAll, evalAll,
        seqEval_strip s sep nbs1 nbs2 hn ct b1 b2 hb,
        ih bs2 hbs nbs1 nbs2 hn ct]

/-- The sequential scheduling loop is priority-independent: runs on
priority-equivalent states produce priority-equivalent results. -/
theorem schedLoop_seq_strip (s : SchedConfig) (sep : ℕ → ℕ → ℚ → ℚ) :
    ∀ (n : ℕ) (bs1 bs2 : List ObservingBlock) (nbs1 nbs2 : List Block)
      (ct : ℚ),
      bs1.map stripPriorityOb = bs2.map stripPriorityOb →
      nbs1.map stripPriorityBlock = nbs2.map stripPriorityBlock →
      stripPriorityRun
          (schedLoop (seqEval s sep) s.end_time s.gap_time n bs1 nbs1 ct)
        = stripPriorityRun
          (schedLoop (seqEval s sep) s.end_time s.gap_time n bs2 nbs2 ct) := by
  intro n
  induction n with
  | zero =>
    intro bs1 bs2 nbs1 nbs2 ct hb hn
    have hlen : bs1.length = bs2.length := by
      simpa using congrArg List.length hb
    rw [schedLoop, schedLoop]
    by_cases hc : 0 < bs1.length ∧ ct < s.end_time
    · rw [if_pos hc, if_pos (hlen ▸ hc)]
    · rw [if_neg hc, if_neg (hlen ▸ hc)]
      simp [stripPriorityRun, hb, hn]
  | succ n ih =>
    intro bs1 bs2 nbs1 nbs2 ct hb hn
    have hlen : bs1.length = bs2.length := by
      simpa using congrArg List.length hb
    rw [schedLoop, schedLoop]
    by_cases hc : 0 < bs1.length ∧ ct < s.end_time
    · rw [if_pos hc, if_pos (hlen ▸ hc)]
      have heq : evalAll (seqEval s sep) nbs1 ct bs1
          = evalAll (seqEval s sep) nbs2 ct bs2 :=
        evalAll_strip s sep bs1 bs2 hb nbs1 nbs2 hn ct
      cases hrs : evalAll (seqEval s sep) nbs2 ct bs2 with
      | error e => rw [heq, hrs]
      | ok rs =>
        rw [heq, hrs]
        dsimp only
        by_cases hz : (rs.map (fun r => r.2)).getD
            (npArgmax (rs.map (fun r => r.2))) 0 = 0
        · rw [if_pos hz, if_pos hz]
          apply ih _ _ _ _ _ hb
          simp only [List.map_append, List.map_cons, List.map_nil, hn]
        · rw [if_neg hz, if_neg hz]
          cases htr : (rs.map (fun r => r.1)).getD
              (npArgmax (rs.map (fun r => r.2))) none with
          | some tr =>
            apply ih
            · rw [map_eraseIdx, map_eraseIdx, hb]
            · have hnewb := scheduleOb_strip _ _
                (getD_strip bs1 bs2 (npArgmax (rs.map (fun r => r.2))) hb)
                (ct + tr.duration) s.gap_time
                ((rs.map (fun r => r.2)).getD
                  (npArgmax (rs.map (fun r => r.2))) 0)
              simp only [List.map_append, List.map_cons, List.map_nil, hn,
                stripPriorityBlock, hnewb]
          | none =>
            apply ih
            · rw [map_eraseIdx, map_eraseIdx, hb]
            · have hnewb := scheduleOb_strip _ _
                (getD_strip bs1 bs2 (npArgmax (rs.map (fun r => r.2))) hb)
                ct s.gap_time
                ((rs.map (fun r => r.2)).getD
                  (npArgmax (rs.map (fun r => r.2))) 0)
              simp only [List.map_append, List.map_cons, List.map_nil, hn,
                stripPriorityBlock, hnewb]
    · rw [if_neg hc, if_neg (hlen ▸ hc)]
      simp [stripPriorityRun, hb, hn]

/-- C10: `SequentialScheduler`'s product scoring never reads `priority`
(only `SummingScheduler` does): two runs on block lists that agree on
everything except the blocks' priorities produce the same schedule up to
the priorities carried inside the returned blocks. -/
theorem c10_sequential_priority_independent (s : SchedConfig)
    (sep : ℕ → ℕ → ℚ → ℚ) (fuel : ℕ) (bs1 bs2 : List ObservingBlock)
    (h : bs1.map stripPriorityOb = bs2.map stripPriorityOb) :
    stripPriorityRun (runSequential s sep fuel bs1)
      = stripPriorityRun (runSequential s sep fuel bs2) :=
  schedLoop_seq_strip s sep fuel bs1 bs2 [] [] s.start_time h rfl

/-- Witness for C10: one block with priority 1 versus the same block with
priority 5. -/
theorem c10_witness :
    [mkOb 1 60 none 1].map stripPriorityOb
        = [mkOb 1 60 none 5].map stripPriorityOb
    ∧ stripPriorityRun (runSequential ⟨[cOne], 0, 7200, none, 1800⟩ sep0 3
          [mkOb 1 60 none 1])
      = stripPriorityRun (runSequential ⟨[cOne], 0, 7200, none, 1800⟩ sep0 3
          [mkOb 1 60 none 5]) :=
  ⟨rfl, c10_sequential_priority_independent ⟨[cOne], 0, 7200, none, 1800⟩
    sep0 3 [mkOb 1 60 none 1] [mkOb 1 60 none 5] rfl⟩
